import Mathlib

/-!
Shallow embedding of the Research-Agent repository (two pipelines:
`brainstorming_agent.py`, the scripted interview, and `abstract_extrator.py`,
the PDF abstract extraction pipeline), together with proofs settling the
frozen claims about its natural-language specification.

Text is modelled as Lean `String` and `List Char`. Machine-level concerns
(network transport, file handles) are modelled by explicit oracles:
an LLM oracle `List Msg → Except String String` (an `Except.error` models a
raised provider/transport exception) and explicit page-read results.
-/

namespace ResearchAgent

/-- Characters removed by Python `str.strip()` (ASCII whitespace set). -/
def isSpc (c : Char) : Bool :=
  c == ' ' || c == '\t' || c == '\n' || c == '\r' || c == '\x0b' || c == '\x0c'

/-- Drop leading whitespace, as the left half of Python `str.strip()`. -/
def trimLeft (l : List Char) : List Char := l.dropWhile isSpc

/-- Drop trailing whitespace, as the right half of Python `str.strip()`. -/
def trimRight (l : List Char) : List Char := (trimLeft l.reverse).reverse

/-- Python `str.strip()` on a list of characters. -/
def pyStrip (l : List Char) : List Char := trimRight (trimLeft l)

/-- Python `str.strip()` on a `String`. -/
def pyStripS (s : String) : String := String.mk (pyStrip s.data)

/-- The literal opening tag of a reasoning block in `strip_think_tags`. -/
def openTagL : List Char := "<think>".data

/-- The literal closing tag of a reasoning block in `strip_think_tags`. -/
def closeTagL : List Char := "</think>".data

/-- Case-insensitive prefix test, modelling `re.IGNORECASE` matching of an
ASCII literal pattern at a fixed position. -/
def isPrefixCI : List Char → List Char → Bool
  | [], _ => true
  | _ :: _, [] => false
  | t :: ts, c :: cs => (t.toLower == c.toLower) && isPrefixCI ts cs

/-- Case-insensitive containment: the tag matches at some position. -/
def containsCI (tag : List Char) : List Char → Bool
  | [] => isPrefixCI tag []
  | c :: cs => isPrefixCI tag (c :: cs) || containsCI tag cs

/-- Scan for the earliest (lazy / shortest-match) occurrence of `</think>`
and return the text after it; `none` when no closing tag occurs. -/
def dropAfterClose : List Char → Option (List Char)
  | [] => none
  | c :: cs =>
    if isPrefixCI closeTagL (c :: cs) then some (cs.drop 7)
    else dropAfterClose cs

/-- Fuelled scanner for
`re.sub(r"<think>[\s\S]*?</think>", "", text, flags=re.IGNORECASE)`:
at each position, a case-insensitive `<think>` followed somewhere by a
`</think>` removes everything up to and including the earliest such closing
tag; an opening tag with no later closing tag is an ordinary character.
Fuel is the length of the input, so the fuel never runs out. -/
def stripThinkF : Nat → List Char → List Char
  | _, [] => []
  | 0, c :: rest => c :: rest
  | n + 1, c :: rest =>
    if isPrefixCI openTagL (c :: rest) then
      match dropAfterClose (rest.drop 6) with
      | some rest2 => stripThinkF n rest2
      | none => c :: stripThinkF n rest
    else c :: stripThinkF n rest

/-- The regex substitution performed by `strip_think_tags`. -/
def stripThink (l : List Char) : List Char := stripThinkF l.length l

/-- Source `strip_think_tags` (brainstorming_agent.py, lines 43-47): remove
`<think>...</think>` blocks from the model output; empty input is returned
unchanged. -/
def strip_think_tags (s : String) : String := String.mk (stripThink s.data)

/-- How every call site of `strip_think_tags` normalizes an assistant
response: `strip_think_tags(raw).strip()`. -/
def normalizeL (l : List Char) : List Char := pyStrip (stripThink l)

/-- Response-normalizer on `String`s: `strip_think_tags(raw).strip()`. -/
def normalizeStr (s : String) : String := String.mk (normalizeL s.data)

/-! ## Interview pipeline (brainstorming_agent.py `__main__`) -/

/-- Role of one chat turn (`SystemMessage` / `UserMessage` /
`AssistantMessage`). -/
inductive Role where
  | system
  | user
  | assistant
deriving DecidableEq, Repr

/-- One role-tagged chat message. -/
structure Msg where
  role : Role
  content : String
deriving DecidableEq, Repr

/-- System message of `requirement_agent_initial_questions`. -/
def sysPromptResearch : String := "You are a helpful research assistant."

/-- Broad-questions instruction of `requirement_agent_initial_questions`
(instruction text abbreviated to its opening sentences). -/
def broadPrompt : String :=
  "You are a requirements brainstorming helper. Your goal is to start by asking the user broad, open-ended questions about their research project."

/-- System message opening the growing conversation in `__main__`. -/
def sysPromptMain : String := "You are a helpful brainstorming assistant."

/-- Second-cycle (detailed questions) instruction, `prompt_2`
(instruction text abbreviated to its opening sentences). -/
def prompt_2 : String :=
  "Role: You are continuing as a requirements brainstorming helper. Now that the user has shared broad details, your task is to ask clarifying and detailed follow-up questions."

/-- Third-cycle (recommendations) instruction, `prompt_3`
(instruction text abbreviated to its opening sentences). -/
def prompt_3 : String :=
  "Role: You are a requirements analyst who has now collected broad and detailed inputs from the user. Your goal is to give recommendations and suggestions for refining their requirements."

/-- Fourth-cycle (summary) instruction, `prompt_4`
(instruction text abbreviated to its opening sentences). -/
def prompt_4 : String :=
  "Role: You are a requirements summarizer. Your only job is to summarize the user inputs and decisions from the conversation in a structured way."

/-- Message list built inside `requirement_agent_initial_questions`. -/
def initialMessages : List Msg :=
  [⟨Role.system, sysPromptResearch⟩, ⟨Role.user, broadPrompt⟩]

/-- Observable outcome of one interview session: the final conversation
list, the transcript file content (`none` when no file was written), whether
the credentials/configuration diagnostic hint was printed, the number of
`complete_text` invocations attempted, and the raw payloads of the
successful invocations in order. -/
structure InterviewOutcome where
  conversation : List Msg
  saved : Option String
  hintPrinted : Bool
  llmCalls : Nat
  responses : List String
deriving DecidableEq, Repr

/-- The interview session of `__main__` (brainstorming_agent.py, lines
74-197), with the LLM client and the interactive `input()` calls modelled
as oracles; `Except.error` models a raised exception, which the single
`try/except` catches by printing the credentials hint and writing no file.
Mirrors the source statement by statement, including the `followup_1`
invocation whose result the source never uses. -/
def runSessionE (llm : List Msg → Except String String)
    (ans1 ans2 ans3 : Except String String) : InterviewOutcome :=
  match llm initialMessages with
  | .error _ => ⟨[], none, true, 1, []⟩
  | .ok questionsRaw =>
    let questions := normalizeStr questionsRaw
    let conv1 : List Msg :=
      [⟨Role.system, sysPromptMain⟩, ⟨Role.assistant, questions⟩]
    match ans1 with
    | .error _ => ⟨conv1, none, true, 1, [questionsRaw]⟩
    | .ok a1 =>
      let conv2 := conv1 ++ [⟨Role.user, a1⟩]
      match llm conv2 with
      | .error _ => ⟨conv2, none, true, 2, [questionsRaw]⟩
      | .ok followup1 =>
        let conv3 := conv2 ++ [⟨Role.system, prompt_2⟩]
        match llm conv3 with
        | .error _ => ⟨conv3, none, true, 3, [questionsRaw, followup1]⟩
        | .ok followup2Raw =>
          let followup2 := normalizeStr followup2Raw
          let conv4 := conv3 ++ [⟨Role.assistant, followup2⟩]
          match ans2 with
          | .error _ =>
            ⟨conv4, none, true, 3, [questionsRaw, followup1, followup2Raw]⟩
          | .ok a2 =>
            let conv5 := conv4 ++ [⟨Role.user, a2⟩] ++ [⟨Role.system, prompt_3⟩]
            match llm conv5 with
            | .error _ =>
              ⟨conv5, none, true, 4, [questionsRaw, followup1, followup2Raw]⟩
            | .ok followup3Raw =>
              let followup3 := normalizeStr followup3Raw
              let conv6 := conv5 ++ [⟨Role.assistant, followup3⟩]
              match ans3 with
              | .error _ =>
                ⟨conv6, none, true, 4,
                  [questionsRaw, followup1, followup2Raw, followup3Raw]⟩
              | .ok a3 =>
                let conv7 :=
                  conv6 ++ [⟨Role.user, a3⟩] ++ [⟨Role.system, prompt_4⟩]
                match llm conv7 with
                | .error _ =>
                  ⟨conv7, none, true, 5,
                    [questionsRaw, followup1, followup2Raw, followup3Raw]⟩
                | .ok summaryRaw =>
                  let summary := normalizeStr summaryRaw
                  let conv8 := conv7 ++ [⟨Role.assistant, summary⟩]
                  ⟨conv8, some summary, false, 5,
                    [questionsRaw, followup1, followup2Raw, followup3Raw,
                     summaryRaw]⟩

/-! ## Azure LLM client text extraction (`complete_text`) -/

/-- One element of a content-parts list; `text` is `none` when the part has
no `text` attribute (`getattr(part, "text", "")` then yields `""`). -/
structure APart where
  text : Option String
deriving DecidableEq, Repr

/-- The `content` attribute of a choice message: either a plain string or a
list of parts. -/
inductive AContent where
  | str (s : String)
  | parts (l : List APart)
deriving DecidableEq, Repr

/-- The `message` attribute of a choice; `content` is `none` when the
attribute is absent or `None` (both falsy). -/
structure AMsg where
  content : Option AContent
deriving DecidableEq, Repr

/-- One element of `response.choices`; `message` is `none` when
`getattr(choice, "message", None)` yields `None`. -/
structure AChoice where
  message : Option AMsg
deriving DecidableEq, Repr

/-- A provider response object: the `choices` list and the optional
`output_text` fallback attribute (`none` when absent). -/
structure AResponse where
  choices : List AChoice
  output_text : Option String
deriving DecidableEq, Repr

/-- The fallback branch of `complete_text`:
`if hasattr(response, "output_text") and response.output_text: return
response.output_text` else `return ""`. -/
def fallbackText (r : AResponse) : String :=
  match r.output_text with
  | some s => if s = "" then "" else s
  | none => ""

/-- Text extraction of `complete_text` (brainstorming_agent.py, lines
25-40): read `choices[0].message.content` (an out-of-range index or falsy
field falls through, as the `try/except` swallows any failure), join the
`text` fields when the content is a list of parts, and otherwise fall back
to `output_text`, defaulting to the empty string. -/
def complete_text_extract (r : AResponse) : String :=
  match r.choices with
  | [] => fallbackText r
  | choice :: _ =>
    match choice.message with
    | none => fallbackText r
    | some msg =>
      match msg.content with
      | none => fallbackText r
      | some (.str s) => if s = "" then fallbackText r else s
      | some (.parts l) =>
        if l = [] then fallbackText r
        else String.join (l.map (fun p => p.text.getD ""))

/-! ## Abstract extraction pipeline (abstract_extrator.py) -/

/-- Response object of the Gemini `generate_content` call; `text` is `none`
when the `text` attribute is absent or `None` (both cases yield `""`
through `getattr(response, "text", "") or ""`). -/
structure GeminiResponse where
  text : Option String
deriving DecidableEq, Repr

/-- Summarization-mode text extraction (abstract_extrator.py, line 126):
`getattr(response, "text", "") or ""`. -/
def gemini_text (r : GeminiResponse) : String :=
  match r.text with
  | some s => if s = "" then "" else s
  | none => ""

/-- Joined and stripped text of the first `min(2, total_pages)` pages
(`"\n\n".join(collected_text_parts).strip()`); a page entry of `none`
models a page whose `extract_text()` raised or returned `None`, which the
source turns into the empty string. -/
def combinedFirstTwo (pages : List (Option String)) : String :=
  pyStripS (String.intercalate "\n\n"
    ((pages.take (min 2 pages.length)).map (fun p => p.getD "")))

/-- Source `read_first_two_pages_text` (abstract_extrator.py, lines 34-54):
the combined text of the first two pages, truncated to `max_chars`
characters. -/
def read_first_two_pages_text (pages : List (Option String))
    (max_chars : Nat) : String :=
  let combined := combinedFirstTwo pages
  if max_chars < combined.length then String.mk (combined.data.take max_chars)
  else combined

/-- Source `build_abstract_prompt` (abstract_extrator.py, lines 79-91):
fixed instruction template with the page text interpolated between
delimiter markers (instruction text abbreviated to its opening sentence). -/
def build_abstract_prompt (first_two_pages_text : String) : String :=
  "You are an expert research assistant. You will receive the first two pages of an academic paper.\n"
    ++ "Paper first two pages below:\n-----------------------------\n"
    ++ first_two_pages_text
    ++ "\n-----------------------------\n"

/-- The error payload substituted at the document boundary:
`f"Error extracting abstract: {error}"`. -/
def errString (e : String) : String := "Error extracting abstract: " ++ e

/-- One input document as the pipeline observes it: its best-effort title,
the result of reading its pages (`Except.error` models a `PdfReader`
failure raised inside the per-document `try`), and the provider call as an
oracle from the built prompt (`Except.error` models a transport/provider
exception). -/
structure DocInput where
  title : String
  read : Except String (List (Option String))
  llm : String → Except String GeminiResponse

/-- Per-document body of the loop in `extract_abstracts_from_pdfs`
(abstract_extrator.py, lines 119-132): returns the abstract payload for the
record and whether a successful API call was made. -/
def processDoc (d : DocInput) : String × Bool :=
  match d.read with
  | .error e => (errString e, false)
  | .ok pages =>
    let first_two_pages := read_first_two_pages_text pages 40000
    if first_two_pages = "" then ("", false)
    else
      match d.llm (build_abstract_prompt first_two_pages) with
      | .error e => (errString e, false)
      | .ok r => (gemini_text r, true)

/-- The document loop of `extract_abstracts_from_pdfs` with the running
`api_calls_made` counter: returns the ordered records, the final counter
value, and the list of sleeps performed, each as
(counter value at the sleep, seconds slept). -/
def extractLoop : List DocInput → Nat →
    List (String × String) × Nat × List (Nat × Nat)
  | [], calls => ([], calls, [])
  | d :: rest, calls =>
    let r := processDoc d
    let calls2 := if r.2 then calls + 1 else calls
    let sleeps1 : List (Nat × Nat) :=
      if r.2 && calls2 % 9 == 0 then [(calls2, 80)] else []
    let next := extractLoop rest calls2
    ((d.title, r.1) :: next.1, next.2.1, sleeps1 ++ next.2.2)

/-- Source `extract_abstracts_from_pdfs` (abstract_extrator.py, lines
94-144) over the enumerated documents of the folder, starting with
`api_calls_made = 0`. -/
def extract_abstracts_from_pdfs (docs : List DocInput) :
    List (String × String) × Nat × List (Nat × Nat) :=
  extractLoop docs 0

/-- The sleeps performed over `n` successful calls starting from counter
value `c`: one 80-second sleep at every counter value divisible by 9. -/
def expectedSleeps (c n : Nat) : List (Nat × Nat) :=
  (((List.range n).map (fun i => c + i + 1)).filter
    (fun k => k % 9 == 0)).map (fun k => (k, 80))

/-- A document whose page read and provider call both succeed, used to
evaluate the pipeline on concrete runs. -/
def plainDoc : DocInput :=
  ⟨"t", Except.ok [some "x"], fun _ => Except.ok ⟨some "a"⟩⟩

/-! ## Helper lemmas -/

theorem dropAfterClose_length :
    ∀ l r : List Char, dropAfterClose l = some r → r.length ≤ l.length := by
  intro l
  induction l with
  | nil => intro r h; simp [dropAfterClose] at h
  | cons c cs ih =>
    intro r h
    by_cases hp : isPrefixCI closeTagL (c :: cs)
    · simp [dropAfterClose, hp] at h
      subst h
      calc (cs.drop 7).length ≤ cs.length := by
            rw [List.length_drop]; omega
        _ ≤ (c :: cs).length := by simp
    · simp [dropAfterClose, hp] at h
      exact le_trans (ih r h) (by simp)

theorem dropAfterClose_sublist :
    ∀ l r : List Char, dropAfterClose l = some r → r.Sublist l := by
  intro l
  induction l with
  | nil => intro r h; simp [dropAfterClose] at h
  | cons c cs ih =>
    intro r h
    by_cases hp : isPrefixCI closeTagL (c :: cs)
    · simp [dropAfterClose, hp] at h
      subst h
      exact (List.drop_sublist 7 cs).cons c
    · simp [dropAfterClose, hp] at h
      exact (ih r h).cons c

theorem stripThinkF_fuel :
    ∀ n m (l : List Char), l.length ≤ n → l.length ≤ m →
      stripThinkF n l = stripThinkF m l := by
  intro n
  induction n with
  | zero =>
    intro m l hn _
    have hl : l = [] := List.length_eq_zero.mp (Nat.le_zero.mp hn)
    subst hl
    cases m <;> simp [stripThinkF]
  | succ n ih =>
    intro m l hn hm
    match l with
    | [] => cases m <;> simp [stripThinkF]
    | c :: rest =>
      match m with
      | 0 => simp at hm
      | m + 1 =>
        have hrn : rest.length ≤ n := by simp at hn; omega
        have hrm : rest.length ≤ m := by simp at hm; omega
        by_cases hp : isPrefixCI openTagL (c :: rest)
        · cases hdc : dropAfterClose (rest.drop 6) with
          | some rest2 =>
            have h2 : rest2.length ≤ rest.length := by
              calc rest2.length ≤ (rest.drop 6).length :=
                    dropAfterClose_length _ _ hdc
                _ ≤ rest.length := by rw [List.length_drop]; omega
            simp only [stripThinkF, hp, if_true, hdc]
            exact ih m rest2 (le_trans h2 hrn) (le_trans h2 hrm)
          | none =>
            simp only [stripThinkF, hp, if_true, hdc]
            exact congrArg (c :: ·) (ih m rest hrn hrm)
        · simp only [stripThinkF, hp, if_false]
          exact congrArg (c :: ·) (ih m rest hrn hrm)

/-- Step equation of `stripThink` when a complete block starts here. -/
theorem stripThink_cons_match {c : Char} {rest rest2 : List Char}
    (hp : isPrefixCI openTagL (c :: rest) = true)
    (hdc : dropAfterClose (rest.drop 6) = some rest2) :
    stripThink (c :: rest) = stripThink rest2 := by
  have h2 : rest2.length ≤ rest.length := by
    calc rest2.length ≤ (rest.drop 6).length := dropAfterClose_length _ _ hdc
      _ ≤ rest.length := by rw [List.length_drop]; omega
  unfold stripThink
  simp only [List.length_cons, stripThinkF, hp, if_true, hdc]
  exact stripThinkF_fuel rest.length rest2.length rest2 h2 le_rfl

/-- Step equation of `stripThink` when no complete block starts here. -/
theorem stripThink_cons_nomatch {c : Char} {rest : List Char}
    (h : isPrefixCI openTagL (c :: rest) = false ∨
         dropAfterClose (rest.drop 6) = none) :
    stripThink (c :: rest) = c :: stripThink rest := by
  unfold stripThink
  simp only [List.length_cons]
  rcases h with h | h
  · simp [stripThinkF, h]
  · by_cases hp : isPrefixCI openTagL (c :: rest) <;>
      simp [stripThinkF, hp, h]

/-- The stripped output is a sublist of the input: all text outside removed
blocks is preserved in its original order. -/
theorem stripThink_sublist : ∀ l : List Char, (stripThink l).Sublist l := by
  have key : ∀ n (l : List Char), l.length ≤ n → (stripThink l).Sublist l := by
    intro n
    induction n with
    | zero =>
      intro l h
      have hl : l = [] := List.length_eq_zero.mp (Nat.le_zero.mp h)
      subst hl
      simp [stripThink, stripThinkF]
    | succ n ih =>
      intro l h
      match l with
      | [] => simp [stripThink, stripThinkF]
      | c :: rest =>
        have hrn : rest.length ≤ n := by simp at h; omega
        by_cases hp : isPrefixCI openTagL (c :: rest)
        · cases hdc : dropAfterClose (rest.drop 6) with
          | some rest2 =>
            rw [stripThink_cons_match hp hdc]
            have h1 : rest2.Sublist (rest.drop 6) :=
              dropAfterClose_sublist _ _ hdc
            have h2 : (rest.drop 6).Sublist rest := List.drop_sublist 6 rest
            have h3 : rest2.length ≤ n := by
              have := dropAfterClose_length _ _ hdc
              rw [List.length_drop] at this
              omega
            exact ((ih rest2 h3).trans (h1.trans h2)).cons c
          | none =>
            rw [stripThink_cons_nomatch (Or.inr hdc)]
            exact (ih rest hrn).cons₂ c
        · rw [stripThink_cons_nomatch (Or.inl (by simpa using hp))]
          exact (ih rest hrn).cons₂ c
  intro l
  exact key l.length l le_rfl

theorem containsCI_cons_false {tag : List Char} {c : Char} {cs : List Char}
    (h : containsCI tag (c :: cs) = false) :
    isPrefixCI tag (c :: cs) = false ∧ containsCI tag cs = false := by
  simpa [containsCI] using h

theorem containsCI_drop_false {tag : List Char} :
    ∀ (l : List Char) (k : Nat), containsCI tag l = false →
      containsCI tag (l.drop k) = false := by
  intro l
  induction l with
  | nil => intro k h; simpa using h
  | cons c cs ih =>
    intro k h
    match k with
    | 0 => simpa using h
    | k + 1 =>
      simp only [List.drop_succ_cons]
      exact ih k (containsCI_cons_false h).2

theorem dropAfterClose_none {l : List Char}
    (h : containsCI closeTagL l = false) : dropAfterClose l = none := by
  induction l with
  | nil => rfl
  | cons c cs ih =>
    have h2 := containsCI_cons_false h
    simp [dropAfterClose, h2.1, ih h2.2]

/-- Input with no case-insensitive `</think>` anywhere passes through the
substitution unchanged; in particular an opening tag with no later closing
tag is kept. -/
theorem stripThink_no_close :
    ∀ l : List Char, containsCI closeTagL l = false → stripThink l = l := by
  intro l
  induction l with
  | nil => exact fun _ => rfl
  | cons c cs ih =>
    intro h
    have h2 := containsCI_cons_false h
    have hdc : dropAfterClose (cs.drop 6) = none :=
      dropAfterClose_none (containsCI_drop_false cs 6 h2.2)
    rw [stripThink_cons_nomatch (Or.inr hdc), ih h2.2]

/-- Input with no case-insensitive `<think>` anywhere passes through the
substitution unchanged. -/
theorem stripThink_no_open :
    ∀ l : List Char, containsCI openTagL l = false → stripThink l = l := by
  intro l
  induction l with
  | nil => exact fun _ => rfl
  | cons c cs ih =>
    intro h
    have h2 := containsCI_cons_false h
    rw [stripThink_cons_nomatch (Or.inl h2.1), ih h2.2]

theorem isPrefixCI_append_self :
    ∀ t l : List Char, isPrefixCI t (t ++ l) = true := by
  intro t l
  induction t with
  | nil => rfl
  | cons c cs ih => simp [isPrefixCI, ih]

/-- Removing one complete block at the head: when the written `</think>` is
the earliest closing tag after the opening tag, the whole block is removed
and stripping continues on the remainder. -/
theorem stripThink_head_block {b c : List Char}
    (h : dropAfterClose (b ++ closeTagL ++ c) = some c) :
    stripThink (openTagL ++ (b ++ closeTagL ++ c)) = stripThink c := by
  have hp : isPrefixCI openTagL
      ('<' :: ("think>".data ++ (b ++ closeTagL ++ c))) = true :=
    isPrefixCI_append_self openTagL (b ++ closeTagL ++ c)
  have hdrop : ("think>".data ++ (b ++ closeTagL ++ c)).drop 6
      = b ++ closeTagL ++ c := by
    have : ("think>".data).length = 6 := rfl
    rw [← this, List.drop_left]
  show stripThink ('<' :: ("think>".data ++ (b ++ closeTagL ++ c)))
      = stripThink c
  rw [stripThink_cons_match hp (hdrop ▸ h)]

theorem trimLeft_idem (l : List Char) : trimLeft (trimLeft l) = trimLeft l := by
  induction l with
  | nil => rfl
  | cons c cs ih =>
    by_cases h : isSpc c
    · simp [trimLeft, List.dropWhile_cons, h] at ih ⊢
      exact ih
    · simp [trimLeft, List.dropWhile_cons, h]

theorem trimLeft_head_not_spc {l : List Char} {c : Char} {cs : List Char}
    (h : trimLeft l = c :: cs) : isSpc c = false := by
  induction l with
  | nil => simp [trimLeft] at h
  | cons a as ih =>
    by_cases ha : isSpc a
    · simp [trimLeft, List.dropWhile_cons, ha] at h
      exact ih h
    · simp [trimLeft, List.dropWhile_cons, ha] at h
      rw [← h.1]
      simpa using ha

theorem trimLeft_append_last :
    ∀ (z : List Char) (c : Char), trimLeft (z ++ [c]) = [] ∨
      ∃ w, trimLeft (z ++ [c]) = w ++ [c] := by
  intro z c
  induction z with
  | nil =>
    by_cases h : isSpc c
    · left; simp [trimLeft, List.dropWhile_cons, h]
    · right; exact ⟨[], by simp [trimLeft, List.dropWhile_cons, h]⟩
  | cons a as ih =>
    by_cases ha : isSpc a
    · simpa [trimLeft, List.dropWhile_cons, ha] using ih
    · right
      exact ⟨a :: as, by simp [trimLeft, List.dropWhile_cons, ha]⟩

theorem trimRight_cons_cases (c : Char) (cs : List Char) :
    trimRight (c :: cs) = [] ∨ ∃ w, trimRight (c :: cs) = c :: w := by
  unfold trimRight
  have : (c :: cs).reverse = cs.reverse ++ [c] := by simp
  rw [this]
  rcases trimLeft_append_last cs.reverse c with h | ⟨w, h⟩
  · left; simp [h]
  · right; exact ⟨w.reverse, by simp [h]⟩

theorem trimRight_idem (l : List Char) :
    trimRight (trimRight l) = trimRight l := by
  unfold trimRight
  rw [List.reverse_reverse, trimLeft_idem]

theorem trimLeft_of_head_not_spc {c : Char} {cs : List Char}
    (h : isSpc c = false) : trimLeft (c :: cs) = c :: cs := by
  simp [trimLeft, List.dropWhile_cons, h]

/-- Python `strip()` is idempotent. -/
theorem pyStrip_idem (l : List Char) : pyStrip (pyStrip l) = pyStrip l := by
  unfold pyStrip
  cases htl : trimLeft l with
  | nil => simp [trimRight, trimLeft]
  | cons c cs =>
    have hc : isSpc c = false := trimLeft_head_not_spc htl
    rcases trimRight_cons_cases c cs with h | ⟨w, h⟩
    · rw [h]
      simp [trimRight, trimLeft]
    · rw [h, trimLeft_of_head_not_spc hc, ← h, trimRight_idem]

/-- The normalizer always returns trimmed text. -/
theorem normalizeL_trimmed (l : List Char) :
    pyStrip (normalizeL l) = normalizeL l := by
  unfold normalizeL
  exact pyStrip_idem _

theorem expectedSleeps_zero (c : Nat) : expectedSleeps c 0 = [] := rfl

theorem expectedSleeps_succ (c n : Nat) :
    expectedSleeps c (n + 1) =
      (if (c + 1) % 9 == 0 then [(c + 1, 80)] else [])
        ++ expectedSleeps (c + 1) n := by
  unfold expectedSleeps
  rw [List.range_succ_eq_map]
  simp only [List.map_cons, List.map_map]
  have hmap : (List.range n).map ((fun i => c + i + 1) ∘ Nat.succ)
      = (List.range n).map (fun i => c + 1 + i + 1) := by
    apply List.map_congr_left
    intro i _
    simp [Function.comp]
    omega
  rw [hmap]
  by_cases h : (c + 1) % 9 = 0
  · simp [List.filter_cons, h]
  · simp [List.filter_cons, h]

theorem extractLoop_length :
    ∀ (docs : List DocInput) (c : Nat),
      (extractLoop docs c).1.length = docs.length := by
  intro docs
  induction docs with
  | nil => intro c; rfl
  | cons d rest ih => intro c; simp [extractLoop, ih]

theorem extractLoop_all_made :
    ∀ (docs : List DocInput) (c : Nat),
      (∀ d ∈ docs, (processDoc d).2 = true) →
      extractLoop docs c =
        (docs.map (fun d => (d.title, (processDoc d).1)),
         c + docs.length,
         expectedSleeps c docs.length) := by
  intro docs
  induction docs with
  | nil => intro c _; simp [extractLoop, expectedSleeps_zero]
  | cons d rest ih =>
    intro c h
    have hd : (processDoc d).2 = true := h d (by simp)
    have hrest : ∀ x ∈ rest, (processDoc x).2 = true := by
      intro x hx
      exact h x (by simp [hx])
    simp only [extractLoop, hd, if_true, ih (c + 1) hrest,
      List.map_cons, List.length_cons, expectedSleeps_succ, Prod.mk.injEq]
    refine ⟨by trivial, by omega, ?_⟩
    by_cases h9 : (c + 1) % 9 = 0 <;> simp [h9]

/-! ## Claim theorems -/

/-- Claim C4: the Response Normalizer removes every delimited
`<think>...</think>` reasoning block (case-insensitive, possibly spanning
multiple lines, possibly occurring multiple times — each removed block is a
shortest leftmost match, and after a removed block stripping continues on
the remainder, so later blocks are removed as well) and returns the
remaining text trimmed of leading and trailing whitespace; empty input is
returned unchanged; normalizing `"<think>internal</think>Final answer"`
yields exactly `"Final answer"`. -/
theorem normalize_strips_think_blocks :
    (normalizeStr "" = "")
    ∧ (∀ b c : List Char, dropAfterClose (b ++ closeTagL ++ c) = some c →
        stripThink (openTagL ++ (b ++ closeTagL ++ c)) = stripThink c)
    ∧ (∀ l : List Char, pyStrip (normalizeL l) = normalizeL l)
    ∧ (normalizeStr "<think>internal</think>Final answer" = "Final answer")
    ∧ (normalizeStr "<THINK>a\nb</THINK>x<think>c</think>y" = "xy") :=
  ⟨rfl, fun _ _ h => stripThink_head_block h, normalizeL_trimmed,
    by decide, by decide⟩

/-- Witness for C4: removing the concrete head block
`<think>xy</think>` ahead of the text `tail`. -/
theorem normalize_strips_think_blocks_witness :
    stripThink (openTagL ++ ("xy".data ++ closeTagL ++ "tail".data))
      = stripThink "tail".data :=
  normalize_strips_think_blocks.2.1 "xy".data "tail".data (by decide)

/-- Claim C10: the tag-stripping function removes only complete,
shortest-match `<think>...</think>` pairs: text with no closing tag (in
particular an opening tag with no later closing tag) is left unchanged, and
all text outside the removed pairs is preserved in its original order (the
output is a sublist of the input). -/
theorem strip_think_shortest_match :
    (∀ l : List Char, (stripThink l).Sublist l)
    ∧ (∀ l : List Char, containsCI closeTagL l = false → stripThink l = l)
    ∧ (strip_think_tags "<think>unterminated tail"
        = "<think>unterminated tail")
    ∧ (strip_think_tags "<think>a</think>b</think>" = "b</think>") :=
  ⟨stripThink_sublist, stripThink_no_close, by decide, by decide⟩

/-- Witness for C10: a concrete opening tag with no later closing tag is
left in the output unchanged. -/
theorem strip_think_shortest_match_witness :
    stripThink "<think>xy".data = "<think>xy".data :=
  strip_think_shortest_match.2.1 "<think>xy".data (by decide)

/-- Counterexample to claim C2 as stated: the normalizer is not idempotent.
Stripping `"<thi<think>y</think>nk>abc</think>"` splices the surrounding
text into the new block `"<think>abc</think>"`, which a second
normalization removes entirely. -/
theorem normalize_idempotent_counterexample :
    normalizeStr (normalizeStr "<thi<think>y</think>nk>abc</think>")
      ≠ normalizeStr "<thi<think>y</think>nk>abc</think>" := by
  decide

/-- Claim C2 as amended: the normalizer is idempotent on every input whose
single-pass result contains no further `<think>...</think>` match (stripping
can splice surrounding text into a new block, in which case a second pass
removes more); and normalizing text that contains no `<think>` tag at all
and has no leading or trailing whitespace is a no-op. -/
theorem normalize_idempotent_amended :
    (∀ l : List Char, stripThink (normalizeL l) = normalizeL l →
        normalizeL (normalizeL l) = normalizeL l)
    ∧ (∀ l : List Char, containsCI openTagL l = false → pyStrip l = l →
        normalizeL l = l) := by
  constructor
  · intro l h
    show pyStrip (stripThink (normalizeL l)) = normalizeL l
    rw [h]
    exact normalizeL_trimmed l
  · intro l h1 h2
    show pyStrip (stripThink l) = l
    rw [stripThink_no_open l h1, h2]

/-- Witness for the amended C2: a concrete already-clean text normalizes to
itself twice. -/
theorem normalize_idempotent_amended_witness :
    normalizeL (normalizeL "ok".data) = normalizeL "ok".data :=
  normalize_idempotent_amended.1 "ok".data (by decide)

/-- Claim C3: the LLM client text extraction is a total function to plain
strings (so no exception escapes it); it tries the primary
`choices[0].message.content` field, concatenates each part's `text` field
when the content is a list of parts, then falls back to the secondary
`output_text` field, and returns the empty string when all of these fail —
and the summarization-mode extraction likewise yields the empty string when
the `text` field is missing or empty. -/
theorem complete_text_fallback_chain :
    (∀ r : AResponse, r.choices = [] →
        complete_text_extract r = fallbackText r)
    ∧ (∀ (r : AResponse) (ch : AChoice) (rest : List AChoice),
        r.choices = ch :: rest → ch.message = none →
        complete_text_extract r = fallbackText r)
    ∧ (∀ (r : AResponse) (ch : AChoice) (rest : List AChoice) (m : AMsg),
        r.choices = ch :: rest → ch.message = some m → m.content = none →
        complete_text_extract r = fallbackText r)
    ∧ (∀ (r : AResponse) (ch : AChoice) (rest : List AChoice) (m : AMsg)
        (s : String),
        r.choices = ch :: rest → ch.message = some m →
        m.content = some (AContent.str s) → s ≠ "" →
        complete_text_extract r = s)
    ∧ (∀ (r : AResponse) (ch : AChoice) (rest : List AChoice) (m : AMsg)
        (l : List APart),
        r.choices = ch :: rest → ch.message = some m →
        m.content = some (AContent.parts l) → l ≠ [] →
        complete_text_extract r
          = String.join (l.map (fun p => p.text.getD "")))
    ∧ (∀ r : AResponse, r.output_text = none ∨ r.output_text = some "" →
        fallbackText r = "")
    ∧ (∀ r : GeminiResponse, r.text = none ∨ r.text = some "" →
        gemini_text r = "") := by
  refine ⟨?_, ?_, ?_, ?_, ?_, ?_, ?_⟩
  · intro r h
    simp [complete_text_extract, h]
  · intro r ch rest h hm
    simp [complete_text_extract, h, hm]
  · intro r ch rest m h hm hc
    simp [complete_text_extract, h, hm, hc]
  · intro r ch rest m s h hm hc hs
    simp [complete_text_extract, h, hm, hc, hs]
  · intro r ch rest m l h hm hc hl
    simp [complete_text_extract, h, hm, hc, hl]
  · intro r h
    rcases h with h | h <;> simp [fallbackText, h]
  · intro r h
    rcases h with h | h <;> simp [gemini_text, h]

/-- Witness for C3: a response with no choices and no `output_text` yields
the empty string. -/
theorem complete_text_fallback_chain_witness :
    complete_text_extract ⟨[], none⟩ = fallbackText ⟨[], none⟩
    ∧ fallbackText ⟨[], none⟩ = "" :=
  ⟨complete_text_fallback_chain.1 ⟨[], none⟩ rfl,
    complete_text_fallback_chain.2.2.2.2.2.1 ⟨[], none⟩ (Or.inl rfl)⟩

theorem take_min_two {α : Type} (l : List α) :
    l.take (min 2 l.length) = l.take 2 := by
  rcases le_total l.length 2 with h | h
  · rw [Nat.min_eq_right h, List.take_length, List.take_of_length_le h]
  · rw [Nat.min_eq_left h]

theorem combinedFirstTwo_take_two (pages : List (Option String)) :
    combinedFirstTwo pages = combinedFirstTwo (pages.take 2) := by
  unfold combinedFirstTwo
  rw [take_min_two, take_min_two, List.take_take, Nat.min_self]

theorem combinedFirstTwo_head_congr {p q : Option String}
    (h : p.getD "" = q.getD "") (rest : List (Option String)) :
    combinedFirstTwo (p :: rest) = combinedFirstTwo (q :: rest) := by
  unfold combinedFirstTwo
  rw [take_min_two, take_min_two, List.take_succ_cons, List.take_succ_cons,
    List.map_cons, List.map_cons, h]

/-- Claim C9: the Page Text Extractor returns the combined text of the
first `min(2, total_pages)` pages (documents are read only up to their
first two pages), and whenever that text is longer than the character cap
the returned text has exactly the cap length (otherwise it is returned
whole); a page whose extraction failed contributes exactly the same as a
page of empty text, and the extractor is a total function (it never
raises). -/
theorem first_two_pages_truncation :
    (∀ (pages : List (Option String)) (cap : Nat),
        read_first_two_pages_text pages cap
          = read_first_two_pages_text (pages.take 2) cap)
    ∧ (∀ (pages : List (Option String)) (cap : Nat),
        cap < (combinedFirstTwo pages).length →
        (read_first_two_pages_text pages cap).length = cap)
    ∧ (∀ (pages : List (Option String)) (cap : Nat),
        (combinedFirstTwo pages).length ≤ cap →
        read_first_two_pages_text pages cap = combinedFirstTwo pages)
    ∧ (∀ (rest : List (Option String)) (cap : Nat),
        read_first_two_pages_text (none :: rest) cap
          = read_first_two_pages_text (some "" :: rest) cap) := by
  refine ⟨?_, ?_, ?_, ?_⟩
  · intro pages cap
    unfold read_first_two_pages_text
    rw [← combinedFirstTwo_take_two]
  · intro pages cap h
    unfold read_first_two_pages_text
    rw [if_pos h]
    show ((combinedFirstTwo pages).data.take cap).length = cap
    rw [List.length_take]
    exact Nat.min_eq_left (le_of_lt h)
  · intro pages cap h
    unfold read_first_two_pages_text
    rw [if_neg (Nat.not_lt.mpr h)]
  · intro rest cap
    unfold read_first_two_pages_text
    rw [combinedFirstTwo_head_congr (p := none) (q := some "") rfl rest]

/-- Witness for C9: a five-character page under a cap of three characters
is truncated to exactly three characters. -/
theorem first_two_pages_truncation_witness :
    (read_first_two_pages_text [some "abcde"] 3).length = 3 :=
  first_two_pages_truncation.2.1 [some "abcde"] 3 (by decide)

/-- Claim C6: a document whose first two pages yield no extractable text
gets the empty string recorded as its abstract and causes no provider
call: its loop iteration makes no call, performs no sleep, and leaves the
call counter unchanged. -/
theorem empty_first_pages_no_llm_call :
    (∀ (title : String) (pages : List (Option String))
        (llm : String → Except String GeminiResponse),
        read_first_two_pages_text pages 40000 = "" →
        processDoc ⟨title, Except.ok pages, llm⟩ = ("", false))
    ∧ (∀ (title : String) (pages : List (Option String))
        (llm : String → Except String GeminiResponse)
        (rest : List DocInput) (c : Nat),
        read_first_two_pages_text pages 40000 = "" →
        extractLoop (⟨title, Except.ok pages, llm⟩ :: rest) c
          = ((title, "") :: (extractLoop rest c).1,
             (extractLoop rest c).2.1, (extractLoop rest c).2.2)) := by
  constructor
  · intro title pages llm h
    simp [processDoc, h]
  · intro title pages llm rest c h
    simp [extractLoop, processDoc, h]

/-- Witness for C6: a document whose two pages are a failed page and a
whitespace-only page yields the empty abstract and no call. -/
theorem empty_first_pages_no_llm_call_witness :
    processDoc ⟨"t", Except.ok [none, some " "],
        fun _ => Except.ok ⟨some "x"⟩⟩ = ("", false) :=
  empty_first_pages_no_llm_call.1 "t" [none, some " "]
    (fun _ => Except.ok ⟨some "x"⟩) (by decide)

/-- Claim C7: the pipeline counts successful API calls and sleeps a fixed
80 seconds after every 9th call; over 20 documents that all make a call it
sleeps exactly twice — at call 9 and call 18 — and produces exactly 20
records, in input order with the input titles. -/
theorem rate_limiter_twenty_documents :
    ∀ docs : List DocInput, docs.length = 20 →
      (∀ d ∈ docs, (processDoc d).2 = true) →
      (extract_abstracts_from_pdfs docs).2.2 = [(9, 80), (18, 80)]
      ∧ (extract_abstracts_from_pdfs docs).2.1 = 20
      ∧ (extract_abstracts_from_pdfs docs).1.length = 20
      ∧ (extract_abstracts_from_pdfs docs).1.map Prod.fst
          = docs.map DocInput.title := by
  intro docs hlen hall
  unfold extract_abstracts_from_pdfs
  rw [extractLoop_all_made docs 0 hall]
  refine ⟨?_, by simpa using hlen, by simpa using hlen, ?_⟩
  · show expectedSleeps 0 docs.length = [(9, 80), (18, 80)]
    rw [hlen]
    decide
  · rw [List.map_map]
    rfl

/-- Witness for C7: twenty successfully processed documents yield sleeps
exactly at calls 9 and 18. -/
theorem rate_limiter_twenty_documents_witness :
    (extract_abstracts_from_pdfs (List.replicate 20 plainDoc)).2.2
      = [(9, 80), (18, 80)] :=
  (rate_limiter_twenty_documents (List.replicate 20 plainDoc)
    (by decide)
    (by
      intro d hd
      rw [List.eq_of_mem_replicate hd]
      decide)).1

/-- Claim C8: any failure while reading the document, building the prompt
or calling the provider is recovered at the document boundary: the
document's abstract is the descriptive error string and the loop continues
with the remaining documents, so every document always yields a record. -/
theorem per_document_error_recovery :
    (∀ docs : List DocInput,
        (extract_abstracts_from_pdfs docs).1.length = docs.length)
    ∧ (∀ (t e : String) (llm : String → Except String GeminiResponse),
        processDoc ⟨t, Except.error e, llm⟩ = (errString e, false))
    ∧ (∀ (t e : String) (pages : List (Option String)),
        read_first_two_pages_text pages 40000 ≠ "" →
        processDoc ⟨t, Except.ok pages, fun _ => Except.error e⟩
          = (errString e, false))
    ∧ (∀ (d : DocInput) (rest : List DocInput) (c : Nat),
        (processDoc d).2 = false →
        extractLoop (d :: rest) c
          = ((d.title, (processDoc d).1) :: (extractLoop rest c).1,
             (extractLoop rest c).2.1, (extractLoop rest c).2.2)) := by
  refine ⟨?_, ?_, ?_, ?_⟩
  · intro docs
    exact extractLoop_length docs 0
  · intro t e llm
    rfl
  · intro t e pages h
    simp [processDoc, h]
  · intro d rest c h
    simp [extractLoop, h]

/-- Witness for C8: a document with readable pages whose provider call
raises gets the descriptive error string as its abstract. -/
theorem per_document_error_recovery_witness :
    processDoc ⟨"t", Except.ok [some "x"], fun _ => Except.error "boom"⟩
      = (errString "boom", false) :=
  per_document_error_recovery.2.2.1 "t" "boom" [some "x"] (by decide)

/-- Claim C1, evaluated against the code: on every completed session the
interview runs its cycles in the fixed order broad questions, detailed
questions, recommendations, summary, but it invokes the LLM client FIVE
times, not four — after the first user answer the source issues an extra
`complete_text(conversation)` call (`followup_1`) whose result is never
used or appended — and the broad-questions instruction is sent in a
separate message list (`initialMessages`) and never appended to the growing
conversation, which instead opens with a different system message. The
conversation otherwise grows by each later phase's instruction, its
normalized assistant response, and the user's answer, in order. -/
theorem interview_session_llm_call_count
    (f : List Msg → String) (a1 a2 a3 : String) :
    let o := runSessionE (fun ms => Except.ok (f ms))
      (Except.ok a1) (Except.ok a2) (Except.ok a3)
    let q := normalizeStr (f initialMessages)
    let c2 : List Msg := [⟨Role.system, sysPromptMain⟩,
      ⟨Role.assistant, q⟩, ⟨Role.user, a1⟩]
    let c3 : List Msg := c2 ++ [⟨Role.system, prompt_2⟩]
    let f2 := normalizeStr (f c3)
    let c5 : List Msg := c3 ++ [⟨Role.assistant, f2⟩, ⟨Role.user, a2⟩,
      ⟨Role.system, prompt_3⟩]
    let f3 := normalizeStr (f c5)
    let c7 : List Msg := c5 ++ [⟨Role.assistant, f3⟩, ⟨Role.user, a3⟩,
      ⟨Role.system, prompt_4⟩]
    o.llmCalls = 5
    ∧ o.responses = [f initialMessages, f c2, f c3, f c5, f c7]
    ∧ o.conversation = c7 ++ [⟨Role.assistant, normalizeStr (f c7)⟩]
    ∧ o.saved = some (normalizeStr (f c7)) := by
  exact ⟨rfl, rfl, rfl, rfl⟩

/-- Claim C5: the session persists at most one artifact; a transcript is
written exactly when no phase failed (equivalently, the
credentials/configuration hint is printed exactly when no transcript is
written), and when it is written its content is exactly the normalized raw
output of the fifth and final client call — the summary phase — and
nothing else. -/
theorem interview_transcript_persistence
    (llm : List Msg → Except String String)
    (ans1 ans2 ans3 : Except String String) :
    ((runSessionE llm ans1 ans2 ans3).hintPrinted = true
      ↔ (runSessionE llm ans1 ans2 ans3).saved = none)
    ∧ (∀ s : String, (runSessionE llm ans1 ans2 ans3).saved = some s →
        (runSessionE llm ans1 ans2 ans3).responses.length = 5
        ∧ (runSessionE llm ans1 ans2 ans3).saved
          = ((runSessionE llm ans1 ans2 ans3).responses[4]?).map
              normalizeStr) := by
  unfold runSessionE
  simp only [List.cons_append, List.nil_append]
  cases llm initialMessages with
  | error e => simp
  | ok q =>
    dsimp only
    cases ans1 with
    | error e => simp
    | ok a1 =>
      dsimp only
      cases llm [(⟨Role.system, sysPromptMain⟩ : Msg),
          ⟨Role.assistant, normalizeStr q⟩, ⟨Role.user, a1⟩] with
      | error e => simp
      | ok f1 =>
        dsimp only
        cases llm [(⟨Role.system, sysPromptMain⟩ : Msg),
            ⟨Role.assistant, normalizeStr q⟩, ⟨Role.user, a1⟩,
            ⟨Role.system, prompt_2⟩] with
        | error e => simp
        | ok f2r =>
          dsimp only
          cases ans2 with
          | error e => simp
          | ok a2 =>
            dsimp only
            cases llm [(⟨Role.system, sysPromptMain⟩ : Msg),
                ⟨Role.assistant, normalizeStr q⟩, ⟨Role.user, a1⟩,
                ⟨Role.system, prompt_2⟩, ⟨Role.assistant, normalizeStr f2r⟩,
                ⟨Role.user, a2⟩, ⟨Role.system, prompt_3⟩] with
            | error e => simp
            | ok f3r =>
              dsimp only
              cases ans3 with
              | error e => simp
              | ok a3 =>
                dsimp only
                cases llm [(⟨Role.system, sysPromptMain⟩ : Msg),
                    ⟨Role.assistant, normalizeStr q⟩, ⟨Role.user, a1⟩,
                    ⟨Role.system, prompt_2⟩,
                    ⟨Role.assistant, normalizeStr f2r⟩, ⟨Role.user, a2⟩,
                    ⟨Role.system, prompt_3⟩,
                    ⟨Role.assistant, normalizeStr f3r⟩, ⟨Role.user, a3⟩,
                    ⟨Role.system, prompt_4⟩] with
                | error e => simp
                | ok sr => simp

/-- Witness for C5: a session whose oracles all succeed writes the
normalized summary response and prints no hint. -/
theorem interview_transcript_persistence_witness :
    (runSessionE (fun _ => Except.ok "A") (Except.ok "B") (Except.ok "B")
        (Except.ok "B")).responses.length = 5 :=
  ((interview_transcript_persistence (fun _ => Except.ok "A")
      (Except.ok "B") (Except.ok "B") (Except.ok "B")).2
    "A" (by decide)).1

end ResearchAgent
